import Mathlib

/-!
Shallow embedding of the core of ITKAnalyzeObjectMap
(src/include/itkAnalyzeObjectMap.h).  The header declares the public
surface of `itk::AnalyzeObjectMap`; the method bodies live in
`itkAnalyzeObjectMap.hxx`, which is not part of the sources here, so the
operations are modelled from the specification's description of each
operation, while the constructed state is taken from the header's
in-class member initializers.

The image is modelled as a flat list of label values (the spec treats
the image as "an opaque N-dimensional array of scalar labels with
get/set-by-index"); coordinates are positions in the list.  The metadata
dictionary is modelled as an ordered list of key/value pairs of
primitive values, as the spec's Metadata Bridge describes.
-/

set_option autoImplicit false

namespace ITKObjectMap

/-- One label's metadata record, from the spec's Entry data model:
name, display color triple (end red/green/blue), opacity and
visibility flags. -/
structure AnalyzeObjectEntry where
  name : String
  red : Int
  green : Int
  blue : Int
  opacity : Int
  visibility : Int
  deriving DecidableEq, Repr

instance : Inhabited AnalyzeObjectEntry :=
  ⟨⟨"", 0, 0, 0, 0, 0⟩⟩

/-- A primitive value stored in the image's generic key/value metadata
dictionary (the spec's "flat ordered list of primitive key/value
pairs"). -/
inductive MetaValue where
  | str : String → MetaValue
  | int : Int → MetaValue
  deriving DecidableEq, Repr

/-- The metadata dictionary attached to an image: an ordered list of
key/value pairs. -/
def MetaDataDictionary : Type := List (String × MetaValue)

/-- The Object Map state: the labeled image's pixels (labels, value 0 is
background), the owned entry table `m_AnaylzeObjectEntryArray`, the
tracked counter `m_NumberOfObjects` (an `int` in the source), and the
image's attached metadata dictionary. -/
structure AnalyzeObjectMap where
  image : List Nat
  entries : List AnalyzeObjectEntry
  numberOfObjects : Int
  metaData : List (String × MetaValue)
  deriving DecidableEq, Repr

/-- A plain labeled image with its attached metadata dictionary, the
input of `ImageToObjectMap`. -/
structure PlainImage where
  pixels : List Nat
  metaData : List (String × MetaValue)
  deriving DecidableEq, Repr

/-- Constructed state.  From the header's in-class initializers
(src/include/itkAnalyzeObjectMap.h lines 212-216): `m_NumberOfObjects{ 1 }`
and a default-constructed (empty) `m_AnaylzeObjectEntryArray`; the image
and metadata start empty.  (The constructor body is in the absent
`.hxx`; it is modelled as adding nothing beyond the initializers.) -/
def initialAnalyzeObjectMap : AnalyzeObjectMap :=
  { image := [], entries := [], numberOfObjects := 1, metaData := [] }

/-- Metadata key for field `field` of the entry at index `i`, following
the spec's stable key-naming scheme (for example `ObjectName[i]`,
`ObjectRed[i]`). -/
def entryKey (field : String) (i : Nat) : String :=
  field ++ "[" ++ toString i ++ "]"

/-- Modelled from the spec (Metadata Bridge, Flush): the serialized
fields of one entry, in a fixed per-field order, keyed by index. -/
def serializeEntry (i : Nat) (e : AnalyzeObjectEntry) : List (String × MetaValue) :=
  [ (entryKey "ObjectName" i, MetaValue.str e.name),
    (entryKey "ObjectRed" i, MetaValue.int e.red),
    (entryKey "ObjectGreen" i, MetaValue.int e.green),
    (entryKey "ObjectBlue" i, MetaValue.int e.blue),
    (entryKey "ObjectOpacity" i, MetaValue.int e.opacity),
    (entryKey "ObjectVisibility" i, MetaValue.int e.visibility) ]

/-- Modelled from the spec (Metadata Bridge, Flush): serialize the
entries in index order, starting at index `i`. -/
def serializeEntries (i : Nat) : List AnalyzeObjectEntry → List (String × MetaValue)
  | [] => []
  | e :: rest => serializeEntry i e ++ serializeEntries (i + 1) rest

/-- Modelled from the spec (Metadata Bridge, Flush): the whole metadata
block, `NumberOfObjects` first, then each entry's fields in index
order. -/
def metaDataOfTable (n : Int) (entries : List AnalyzeObjectEntry) :
    List (String × MetaValue) :=
  ("NumberOfObjects", MetaValue.int n) :: serializeEntries 0 entries

/-- Modelled from the spec (`PlaceObjectMapEntriesIntoMetaData`, the
body being in the absent `.hxx`): replace the image's metadata block by
the serialization of the current counter and entry table. -/
def PlaceObjectMapEntriesIntoMetaData (m : AnalyzeObjectMap) : AnalyzeObjectMap :=
  { m with metaData := metaDataOfTable m.numberOfObjects m.entries }

/-- The image carried by an Object Map, as a plain image with metadata:
what an unrelated I/O layer sees. -/
def asPlainImage (m : AnalyzeObjectMap) : PlainImage :=
  ⟨m.image, m.metaData⟩

/-- Modelled from the spec (Metadata Bridge, Load): parse the six
serialized fields of the entry at index `i` from the head of the
metadata list, returning the entry and the remaining list; `none` when
a required key is absent or mistyped. -/
def parseEntry (i : Nat) :
    List (String × MetaValue) → Option (AnalyzeObjectEntry × List (String × MetaValue))
  | (k1, MetaValue.str nm) :: (k2, MetaValue.int r) :: (k3, MetaValue.int g) ::
      (k4, MetaValue.int b) :: (k5, MetaValue.int o) :: (k6, MetaValue.int v) :: rest =>
    if k1 = entryKey "ObjectName" i ∧ k2 = entryKey "ObjectRed" i ∧
        k3 = entryKey "ObjectGreen" i ∧ k4 = entryKey "ObjectBlue" i ∧
        k5 = entryKey "ObjectOpacity" i ∧ k6 = entryKey "ObjectVisibility" i then
      some (⟨nm, r, g, b, o, v⟩, rest)
    else
      none
  | _ => none

/-- Modelled from the spec (Metadata Bridge, Load): parse `count`
entries in index order starting at index `i`; `none` when a required
key is absent for an expected index. -/
def parseEntries (i : Nat) : Nat → List (String × MetaValue) → Option (List AnalyzeObjectEntry)
  | 0, _ => some []
  | count + 1, l =>
    match parseEntry i l with
    | none => none
    | some (e, rest) => (parseEntries (i + 1) count rest).map (fun es => e :: es)

/-- Modelled from the spec (Metadata Bridge, Load): reconstruct the
entry table from a metadata dictionary.  If the `NumberOfObjects` key is
missing, or a required key is absent for an expected index, the result
is the entry table of size 0 (the spec's MetadataAbsent outcome, not an
error). -/
def loadEntriesFromMetaData : List (String × MetaValue) → List AnalyzeObjectEntry
  | (k, MetaValue.int n) :: rest =>
    if k = "NumberOfObjects" ∧ 0 ≤ n then
      match parseEntries 0 n.toNat rest with
      | some es => es
      | none => []
    else []
  | _ => []

/-- Modelled from the spec (`ImageToObjectMap`, the body being in the
absent `.hxx`): make an object map from a plain image: extract the entry
table from the image's metadata when present (empty table otherwise),
and copy the image's pixel container into the object map's. -/
def ImageToObjectMap (img : PlainImage) (_m : AnalyzeObjectMap) : AnalyzeObjectMap :=
  let es := loadEntriesFromMetaData img.metaData
  { image := img.pixels,
    entries := es,
    numberOfObjects := (es.length : Int),
    metaData := img.metaData }

/-- Modelled from the spec (`FindObject` helper): linear scan for the
first entry whose name matches, 0-based position accumulated in `i`. -/
def findEntryIndexFrom (name : String) : List AnalyzeObjectEntry → Option Nat
  | [] => none
  | e :: rest =>
    if e.name = name then some 0
    else (findEntryIndexFrom name rest).map (fun j => j + 1)

/-- Modelled from the spec (`FindObjectEntry`, the body being in the
absent `.hxx`): return the 0-based index of the first entry whose name
matches, or -1 when none does. -/
def FindObjectEntry (name : String) (m : AnalyzeObjectMap) : Int :=
  match findEntryIndexFrom name m.entries with
  | some i => (i : Int)
  | none => -1

/-- A fresh entry with the given name and color and default
opacity/visibility, as appended by the add operations. -/
def makeEntry (name : String) (r g b : Int) : AnalyzeObjectEntry :=
  { name := name, red := r, green := g, blue := b, opacity := 0, visibility := 1 }

/-- Modelled from the spec (`AddAnalyzeObjectEntry`, the body being in
the absent `.hxx`): append one new entry with the given name and default
color/visibility at the end of the table, increment `NumberOfObjects`,
and re-sync the metadata. -/
def AddAnalyzeObjectEntry (name : String) (m : AnalyzeObjectMap) : AnalyzeObjectMap :=
  let entries := m.entries ++ [makeEntry name 0 0 0]
  let n := m.numberOfObjects + 1
  { image := m.image,
    entries := entries,
    numberOfObjects := n,
    metaData := metaDataOfTable n entries }

/-- The relabeling applied to one pixel when the entry at index `i` is
deleted: label `i+1` is reset to 0, labels greater than `i+1` are
decremented by one, other labels are unchanged. -/
def relabelAfterDelete (i : Nat) (p : Nat) : Nat :=
  if p = i + 1 then 0
  else if p > i + 1 then p - 1
  else p

/-- Modelled from the spec (`DeleteAnalyzeObjectEntry`, the body being
in the absent `.hxx`): look up the entry by name; when absent, do
nothing; when found at index `i`, relabel every pixel (label `i+1`
to 0, greater labels decremented), remove the entry at index `i`,
decrement `NumberOfObjects`, and re-sync the metadata. -/
def DeleteAnalyzeObjectEntry (name : String) (m : AnalyzeObjectMap) : AnalyzeObjectMap :=
  match findEntryIndexFrom name m.entries with
  | none => m
  | some i =>
    let image := m.image.map (relabelAfterDelete i)
    let entries := m.entries.eraseIdx i
    let n := m.numberOfObjects - 1
    { image := image,
      entries := entries,
      numberOfObjects := n,
      metaData := metaDataOfTable n entries }

/-- The largest pixel value of a source image (0 for an empty image):
the spec's "maximum value actually found in sourceImage". -/
def listMax : List Int → Int
  | [] => 0
  | x :: xs => xs.foldl max x

/-- Stamp `newLabel` into the object map's pixels at every coordinate
where the source image holds `v`, leaving the other coordinates
unchanged (coordinatewise over the two equal-extent images). -/
def stampPixels (v : Int) (newLabel : Nat) : List Nat → List Int → List Nat
  | [], _ => []
  | ps, [] => ps
  | p :: ps, s :: ss => (if s = v then newLabel else p) :: stampPixels v newLabel ps ss

/-- Modelled from the spec (`AddObjectEntryBasedOnImagePixel`, scan
step): scan the source image for pixels equal to `value` (or to the
maximum value found in the source when `value` is the sentinel -1),
stamp the next unused label `NumberOfObjects + 1` at every matching
coordinate, append one new entry with the supplied name and color,
increment `NumberOfObjects`, and re-sync the metadata.  This is the
successful path, taken once the geometry precondition has been
checked. -/
def addObjectEntryScan (source : List Int) (value : Int)
    (name : String) (r g b : Int) (m : AnalyzeObjectMap) : AnalyzeObjectMap :=
  let v := if value = -1 then listMax source else value
  let newLabel := m.numberOfObjects.toNat + 1
  let entries := m.entries ++ [makeEntry name r g b]
  let n := m.numberOfObjects + 1
  { image := stampPixels v newLabel m.image source,
    entries := entries,
    numberOfObjects := n,
    metaData := metaDataOfTable n entries }

/-- Modelled from the spec (`AddObjectEntryBasedOnImagePixel`, the body
being in the absent `.hxx`): the source image must share the object
map's coordinate extents; violating this is a fatal precondition
failure (the spec's GeometryMismatch error), which aborts the operation
before any mutation.  On equal extents the scan-and-stamp step runs to
completion. -/
def AddObjectEntryBasedOnImagePixel (source : List Int) (value : Int)
    (name : String) (r g b : Int) (m : AnalyzeObjectMap) :
    Except String AnalyzeObjectMap :=
  if source.length = m.image.length then
    Except.ok (addObjectEntryScan source value name r g b m)
  else Except.error "geometry mismatch"

/-- One color pixel of the RGB projection. -/
structure RGBPixel where
  red : Int
  green : Int
  blue : Int
  deriving DecidableEq, Repr

/-- The fixed background color emitted for label 0. -/
def backgroundColor : RGBPixel :=
  ⟨0, 0, 0⟩

/-- The display color triple of an entry. -/
def entryColor (e : AnalyzeObjectEntry) : RGBPixel :=
  ⟨e.red, e.green, e.blue⟩

/-- Modelled from the spec (`ObjectMapToRGBImage`, the body being in the
absent `.hxx`): produce a color image of the same geometry; label 0
becomes the fixed background color, label L > 0 becomes the color of the
entry at table index L-1.  The object map itself is returned unchanged
alongside the color image (the operation does not mutate it). -/
def ObjectMapToRGBImage (m : AnalyzeObjectMap) : AnalyzeObjectMap × List RGBPixel :=
  (m, m.image.map (fun l =>
    if l = 0 then backgroundColor
    else
      match m.entries.get? (l - 1) with
      | some e => entryColor e
      | none => backgroundColor))

/-- Modelled from the spec (`GetObjectEntry`): the spec directs a
reimplementation to fail with an "out of range" condition when `index`
is outside `[0, NumberOfObjects)` instead of reading out of bounds, and
to return the stored entry otherwise. -/
def GetObjectEntry (index : Int) (m : AnalyzeObjectMap) :
    Except String AnalyzeObjectEntry :=
  if 0 ≤ index ∧ index < m.numberOfObjects then
    match m.entries.get? index.toNat with
    | some e => Except.ok e
    | none => Except.error "out of range"
  else Except.error "out of range"

/-- The spec's invariants I1 and I2: the entry table size equals the
`NumberOfObjects` counter, and every pixel value of the image lies in
`[0, NumberOfObjects]`. -/
def ValidState (m : AnalyzeObjectMap) : Prop :=
  (m.entries.length : Int) = m.numberOfObjects ∧
    ∀ p ∈ m.image, (p : Int) ≤ m.numberOfObjects

instance (m : AnalyzeObjectMap) : Decidable (ValidState m) := by
  unfold ValidState
  exact instDecidableAnd

/-- The spec's invariant I3: the image's embedded metadata copy agrees
with the entry table and the counter. -/
def MetaDataConsistent (m : AnalyzeObjectMap) : Prop :=
  m.metaData = metaDataOfTable m.numberOfObjects m.entries

/-! ### Helper lemmas about list indexing -/

theorem getD_of_get? {α : Type} (l : List α) (j : Nat) (d : α) (h : j < l.length) :
    l.get? j = some (l.getD j d) := by
  induction l generalizing j with
  | nil => simp at h
  | cons a as ih =>
    cases j with
    | zero => rfl
    | succ j' => exact ih j' (by simpa using h)

theorem getD_map_of_lt {α β : Type} (f : α → β) (l : List α) (j : Nat)
    (h : j < l.length) (d : α) (d' : β) :
    (l.map f).getD j d' = f (l.getD j d) := by
  induction l generalizing j with
  | nil => simp at h
  | cons a as ih =>
    cases j with
    | zero => rfl
    | succ j' => exact ih j' (by simpa using h)

theorem length_eraseIdx_of_lt {α : Type} (l : List α) (i : Nat) (h : i < l.length) :
    (l.eraseIdx i).length = l.length - 1 := by
  induction l generalizing i with
  | nil => simp at h
  | cons a as ih =>
    cases i with
    | zero => simp [List.eraseIdx]
    | succ i' =>
      have h' : i' < as.length := by simpa using h
      have hpos : 1 ≤ as.length := Nat.one_le_of_lt (Nat.lt_of_le_of_lt (Nat.zero_le _) h')
      simp [List.eraseIdx, ih i' h', Nat.succ_sub_one]
      omega

theorem getD_eraseIdx_of_lt {α : Type} (l : List α) (i j : Nat) (d : α) (h : j < i) :
    (l.eraseIdx i).getD j d = l.getD j d := by
  induction l generalizing i j with
  | nil => simp [List.eraseIdx]
  | cons a as ih =>
    cases i with
    | zero => omega
    | succ i' =>
      cases j with
      | zero => rfl
      | succ j' => exact ih i' j' (by omega)

theorem getD_eraseIdx_of_ge {α : Type} (l : List α) (i j : Nat) (d : α)
    (hi : i ≤ j) (hj : j < l.length - 1) :
    (l.eraseIdx i).getD j d = l.getD (j + 1) d := by
  induction l generalizing i j with
  | nil => simp at hj
  | cons a as ih =>
    cases i with
    | zero => rfl
    | succ i' =>
      cases j with
      | zero => omega
      | succ j' =>
        have := ih i' j' (by omega) (by simp at hj; omega)
        simpa using this

/-! ### Helper lemmas about the name lookup -/

theorem findEntryIndexFrom_eq_none (name : String) (l : List AnalyzeObjectEntry) :
    findEntryIndexFrom name l = none ↔ ∀ e ∈ l, e.name ≠ name := by
  induction l with
  | nil => simp [findEntryIndexFrom]
  | cons e rest ih =>
    by_cases he : e.name = name
    · simp only [findEntryIndexFrom, if_pos he]
      constructor
      · intro h
        exact absurd h (Option.some_ne_none 0)
      · intro hall
        exact absurd he (hall e (List.mem_cons_self e rest))
    · simp only [findEntryIndexFrom, if_neg he, Option.map_eq_none']
      rw [ih]
      constructor
      · intro hall x hx
        rcases List.mem_cons.mp hx with rfl | hx'
        · exact he
        · exact hall x hx'
      · intro hall x hx
        exact hall x (List.mem_cons_of_mem e hx)

theorem findEntryIndexFrom_some_bound (name : String) (l : List AnalyzeObjectEntry)
    (i : Nat) (h : findEntryIndexFrom name l = some i) :
    i < l.length ∧ (l.getD i default).name = name := by
  induction l generalizing i with
  | nil => simp [findEntryIndexFrom] at h
  | cons e rest ih =>
    by_cases he : e.name = name
    · simp [findEntryIndexFrom, he] at h
      subst h
      simpa using he
    · simp only [findEntryIndexFrom, if_neg he, Option.map_eq_some'] at h
      obtain ⟨j, hj, rfl⟩ := h
      have := ih j hj
      constructor
      · simpa using Nat.succ_lt_succ this.1
      · simpa using this.2

theorem findEntryIndexFrom_of_first (name : String) (l : List AnalyzeObjectEntry)
    (i : Nat) (h1 : i < l.length) (h2 : (l.getD i default).name = name)
    (h3 : ∀ j, j < i → (l.getD j default).name ≠ name) :
    findEntryIndexFrom name l = some i := by
  induction l generalizing i with
  | nil => simp at h1
  | cons e rest ih =>
    by_cases he : e.name = name
    · have hi0 : i = 0 := by
        by_contra hne
        exact h3 0 (Nat.pos_of_ne_zero hne) he
      subst hi0
      simp [findEntryIndexFrom, he]
    · cases i with
      | zero => simp at h2; exact absurd h2 he
      | succ i' =>
        have := ih i' (by simpa using h1) (by simpa using h2)
          (fun j hj => by simpa using h3 (j + 1) (Nat.succ_lt_succ hj))
        simp [findEntryIndexFrom, if_neg he, this]

/-! ### Helper lemmas about the maximum pixel value -/

theorem foldl_max_spec (xs : List Int) (a : Int) :
    a ≤ xs.foldl max a ∧ ∀ x ∈ xs, x ≤ xs.foldl max a := by
  induction xs generalizing a with
  | nil => simp
  | cons y ys ih =>
    have h := ih (max a y)
    refine ⟨le_trans (le_max_left a y) h.1, ?_⟩
    intro x hx
    rcases List.mem_cons.mp hx with rfl | hx'
    · exact le_trans (le_max_right a x) h.1
    · exact h.2 x hx'

theorem foldl_max_mem (xs : List Int) (a : Int) :
    xs.foldl max a = a ∨ xs.foldl max a ∈ xs := by
  induction xs generalizing a with
  | nil => simp
  | cons y ys ih =>
    rcases ih (max a y) with h | h
    · rcases max_cases a y with ⟨hm, _⟩ | ⟨hm, _⟩
      · left; simpa [List.foldl] using h.trans hm
      · right; simp [List.foldl]; left; exact h.trans hm
    · right; simp [List.foldl]; right; exact h

theorem listMax_mem (l : List Int) (h : l ≠ []) : listMax l ∈ l := by
  cases l with
  | nil => exact absurd rfl h
  | cons x xs =>
    rcases foldl_max_mem xs x with hx | hx
    · simp [listMax, hx]
    · simp [listMax]; right; exact hx

theorem le_listMax (l : List Int) (x : Int) (h : x ∈ l) : x ≤ listMax l := by
  cases l with
  | nil => simp at h
  | cons y ys =>
    rcases List.mem_cons.mp h with rfl | hx
    · exact (foldl_max_spec ys x).1
    · exact (foldl_max_spec ys y).2 x hx

/-! ### Helper lemmas about pixel stamping -/

theorem length_stampPixels (v : Int) (nl : Nat) (ps : List Nat) (ss : List Int) :
    (stampPixels v nl ps ss).length = ps.length := by
  induction ps generalizing ss with
  | nil => cases ss <;> rfl
  | cons p ps' ih =>
    cases ss with
    | nil => rfl
    | cons s ss' => simp [stampPixels, ih]

theorem getD_stampPixels (v : Int) (nl : Nat) (ps : List Nat) (ss : List Int)
    (j : Nat) (hj : j < ps.length) (hs : j < ss.length) :
    (stampPixels v nl ps ss).getD j 0 =
      if ss.getD j 0 = v then nl else ps.getD j 0 := by
  induction ps generalizing ss j with
  | nil => simp at hj
  | cons p ps' ih =>
    cases ss with
    | nil => simp at hs
    | cons s ss' =>
      cases j with
      | zero => rfl
      | succ j' =>
        exact ih ss' j' (by simpa using hj) (by simpa using hs)

/-! ### Round-trip of the metadata serialization -/

theorem parseEntry_serializeEntry (i : Nat) (e : AnalyzeObjectEntry)
    (tail : List (String × MetaValue)) :
    parseEntry i (serializeEntry i e ++ tail) = some (e, tail) := by
  simp [serializeEntry, parseEntry]

theorem parseEntries_serializeEntries (es : List AnalyzeObjectEntry) :
    ∀ i, parseEntries i es.length (serializeEntries i es) = some es := by
  induction es with
  | nil => intro i; rfl
  | cons e rest ih =>
    intro i
    have hser : serializeEntries i (e :: rest) =
        serializeEntry i e ++ serializeEntries (i + 1) rest := rfl
    have hlen : (e :: rest).length = rest.length + 1 := rfl
    rw [hser, hlen]
    show (match parseEntry i (serializeEntry i e ++ serializeEntries (i + 1) rest) with
      | none => none
      | some (e', rest') =>
        (parseEntries (i + 1) rest.length rest').map (fun es => e' :: es)) = some (e :: rest)
    rw [parseEntry_serializeEntry]
    show (parseEntries (i + 1) rest.length (serializeEntries (i + 1) rest)).map
      (fun es => e :: es) = some (e :: rest)
    rw [ih (i + 1)]
    rfl

theorem loadEntries_metaDataOfTable (es : List AnalyzeObjectEntry) :
    loadEntriesFromMetaData (metaDataOfTable (es.length : Int) es) = es := by
  have hkey : ("NumberOfObjects" : String) = "NumberOfObjects" ∧
      (0 : Int) ≤ (es.length : Int) := ⟨rfl, Int.natCast_nonneg _⟩
  show (if ("NumberOfObjects" : String) = "NumberOfObjects" ∧ (0 : Int) ≤ (es.length : Int) then
      match parseEntries 0 ((es.length : Int)).toNat (serializeEntries 0 es) with
      | some es' => es'
      | none => []
    else []) = es
  rw [if_pos hkey, Int.toNat_natCast, parseEntries_serializeEntries es 0]

theorem getD_append_left {α : Type} (l1 l2 : List α) (j : Nat) (h : j < l1.length) (d : α) :
    (l1 ++ l2).getD j d = l1.getD j d := by
  induction l1 generalizing j with
  | nil => simp at h
  | cons a as ih =>
    cases j with
    | zero => rfl
    | succ j' => exact ih j' (by simpa using h)

theorem getD_append_length {α : Type} (l : List α) (x : α) (d : α) :
    (l ++ [x]).getD l.length d = x := by
  induction l with
  | nil => rfl
  | cons a as ih => exact ih

theorem mem_stampPixels (v : Int) (nl : Nat) (ps : List Nat) (ss : List Int)
    (p : Nat) (hp : p ∈ stampPixels v nl ps ss) : p = nl ∨ p ∈ ps := by
  induction ps generalizing ss with
  | nil => cases ss <;> simp [stampPixels] at hp
  | cons q ps' ih =>
    cases ss with
    | nil => right; exact hp
    | cons s ss' =>
      rcases List.mem_cons.mp hp with h | h
      · by_cases hs : s = v
        · left; simpa [hs] using h
        · right; rw [if_neg hs] at h; exact List.mem_cons.mpr (Or.inl h)
      · rcases ih ss' h with h' | h'
        · left; exact h'
        · right; exact List.mem_cons.mpr (Or.inr h')

/-! ### Sample states used by the witnesses -/

/-- A sample entry named "A". -/
def sampleEntryA : AnalyzeObjectEntry :=
  ⟨"A", 10, 20, 30, 0, 1⟩

/-- A sample entry named "B". -/
def sampleEntryB : AnalyzeObjectEntry :=
  ⟨"B", 40, 50, 60, 0, 1⟩

/-- A sample entry named "C". -/
def sampleEntryC : AnalyzeObjectEntry :=
  ⟨"C", 70, 80, 90, 0, 1⟩

/-- A sample valid object map with three entries, labels {1,2,3}. -/
def sampleMap : AnalyzeObjectMap :=
  { image := [0, 1, 2, 3, 1, 2, 3],
    entries := [sampleEntryA, sampleEntryB, sampleEntryC],
    numberOfObjects := 3,
    metaData := [] }

/-- The empty object map of the spec's Scenario A (`NumberOfObjects = 0`). -/
def emptyObjectMap : AnalyzeObjectMap :=
  { image := [], entries := [], numberOfObjects := 0, metaData := [] }

/-! ### Claim theorems -/

/-- C10: a freshly constructed `AnalyzeObjectMap` has `NumberOfObjects`
equal to 1 (the header's in-class initializer) while its entry array is
empty, so the constructed state violates `table.size == NumberOfObjects`
(invariant I1) and is not the `NumberOfObjects = 0` empty map that the
spec's Scenario A starts from. -/
theorem claim_C10 :
    initialAnalyzeObjectMap.numberOfObjects = 1 ∧
    initialAnalyzeObjectMap.entries = [] ∧
    ¬ ValidState initialAnalyzeObjectMap ∧
    initialAnalyzeObjectMap.numberOfObjects ≠ 0 := by
  refine ⟨rfl, rfl, ?_, by decide⟩
  intro h
  have h1 := h.1
  simp [initialAnalyzeObjectMap] at h1

/-- C5: `AddAnalyzeObjectEntry` appends exactly one new entry with the
given name and default color/visibility at the end of the table and
increments `NumberOfObjects` by one, for every map and name (it is a
total function, with no failure mode); in particular on the empty map
with `NumberOfObjects = 0`, adding "liver" yields `NumberOfObjects = 1`
and `FindObjectEntry "liver" = 0`. -/
theorem claim_C5 :
    (∀ (m : AnalyzeObjectMap) (name : String),
      (AddAnalyzeObjectEntry name m).entries.length = m.entries.length + 1 ∧
      (AddAnalyzeObjectEntry name m).entries.getD m.entries.length default
        = makeEntry name 0 0 0 ∧
      (∀ j, j < m.entries.length →
        (AddAnalyzeObjectEntry name m).entries.getD j default
          = m.entries.getD j default) ∧
      (AddAnalyzeObjectEntry name m).numberOfObjects = m.numberOfObjects + 1) ∧
    (∀ m : AnalyzeObjectMap, m.numberOfObjects = 0 → m.entries = [] →
      (AddAnalyzeObjectEntry "liver" m).numberOfObjects = 1 ∧
      FindObjectEntry "liver" (AddAnalyzeObjectEntry "liver" m) = 0) := by
  constructor
  · intro m name
    refine ⟨by simp [AddAnalyzeObjectEntry], ?_, ?_, rfl⟩
    · show (m.entries ++ [makeEntry name 0 0 0]).getD m.entries.length default
        = makeEntry name 0 0 0
      exact getD_append_length m.entries _ default
    · intro j hj
      show (m.entries ++ [makeEntry name 0 0 0]).getD j default = m.entries.getD j default
      exact getD_append_left m.entries _ j hj default
  · rintro ⟨img, es, n, md⟩ hn he
    simp only [AnalyzeObjectMap.mk.injEq] at *
    subst hn
    subst he
    constructor
    · rfl
    · rfl

/-- C5 witness: the scenario instantiated on the concrete empty map. -/
theorem claim_C5_witness :
    (AddAnalyzeObjectEntry "liver" emptyObjectMap).numberOfObjects = 1 ∧
    FindObjectEntry "liver" (AddAnalyzeObjectEntry "liver" emptyObjectMap) = 0 :=
  claim_C5.2 emptyObjectMap rfl rfl

/-- C7: `FindObjectEntry` returns the 0-based index of the first entry
whose name exactly matches, returns -1 when no entry matches, and never
raises an error: its result is always either -1 or a valid index. -/
theorem claim_C7 (name : String) (m : AnalyzeObjectMap) :
    ((∀ e ∈ m.entries, e.name ≠ name) → FindObjectEntry name m = -1) ∧
    (∀ i : Nat, i < m.entries.length →
      (m.entries.getD i default).name = name →
      (∀ j, j < i → (m.entries.getD j default).name ≠ name) →
      FindObjectEntry name m = (i : Int)) ∧
    (FindObjectEntry name m = -1 ∨
      (0 ≤ FindObjectEntry name m ∧
        FindObjectEntry name m < (m.entries.length : Int))) := by
  refine ⟨?_, ?_, ?_⟩
  · intro hall
    unfold FindObjectEntry
    rw [(findEntryIndexFrom_eq_none name m.entries).mpr hall]
  · intro i h1 h2 h3
    unfold FindObjectEntry
    rw [findEntryIndexFrom_of_first name m.entries i h1 h2 h3]
  · unfold FindObjectEntry
    cases hf : findEntryIndexFrom name m.entries with
    | none => left; rfl
    | some i =>
      right
      have hb := (findEntryIndexFrom_some_bound name m.entries i hf).1
      constructor
      · show (0 : Int) ≤ (i : Int)
        exact Int.natCast_nonneg i
      · show (i : Int) < (m.entries.length : Int)
        exact_mod_cast hb

/-- C7 witness: lookups on the concrete sample map. -/
theorem claim_C7_witness :
    FindObjectEntry "Z" sampleMap = -1 ∧ FindObjectEntry "B" sampleMap = 1 :=
  ⟨(claim_C7 "Z" sampleMap).1 (by decide),
   (claim_C7 "B" sampleMap).2.1 1 (by decide) (by decide) (by decide)⟩

/-- C9: `GetObjectEntry` yields the "out of range" error for every index
outside `[0, NumberOfObjects)`, and returns the entry stored at the
index for every index inside the range (on a map satisfying invariant
I1). -/
theorem claim_C9 (m : AnalyzeObjectMap) (index : Int) :
    ((index < 0 ∨ m.numberOfObjects ≤ index) →
      GetObjectEntry index m = Except.error "out of range") ∧
    (0 ≤ index → index < m.numberOfObjects →
      (m.entries.length : Int) = m.numberOfObjects →
      GetObjectEntry index m = Except.ok (m.entries.getD index.toNat default)) := by
  constructor
  · intro h
    unfold GetObjectEntry
    rw [if_neg]
    rintro ⟨h1, h2⟩
    rcases h with h | h <;> omega
  · intro h0 hn hI
    unfold GetObjectEntry
    rw [if_pos ⟨h0, hn⟩]
    have hlt : index.toNat < m.entries.length := by omega
    rw [getD_of_get? m.entries index.toNat default hlt]

/-- C9 witness: an out-of-range and an in-range access on the sample map. -/
theorem claim_C9_witness :
    GetObjectEntry 5 sampleMap = Except.error "out of range" ∧
    GetObjectEntry 1 sampleMap = Except.ok (sampleMap.entries.getD (1 : Int).toNat default) :=
  ⟨(claim_C9 sampleMap 5).1 (by decide),
   (claim_C9 sampleMap 1).2 (by decide) (by decide) (by decide)⟩

/-- C3: flushing the entry table into the image's metadata store and
then loading it back from that same image reproduces an entry table
identical to the one before the flush (same count, same field values in
the same order), for every map satisfying invariant I1. -/
theorem claim_C3 (m m0 : AnalyzeObjectMap)
    (h : (m.entries.length : Int) = m.numberOfObjects) :
    (ImageToObjectMap (asPlainImage (PlaceObjectMapEntriesIntoMetaData m)) m0).entries
      = m.entries ∧
    (ImageToObjectMap (asPlainImage (PlaceObjectMapEntriesIntoMetaData m)) m0).entries.length
      = m.entries.length := by
  have hload :
      (ImageToObjectMap (asPlainImage (PlaceObjectMapEntriesIntoMetaData m)) m0).entries
        = loadEntriesFromMetaData (metaDataOfTable m.numberOfObjects m.entries) := rfl
  rw [hload, ← h, loadEntries_metaDataOfTable]
  exact ⟨rfl, rfl⟩

/-- C3 witness: the round-trip on the concrete sample map. -/
theorem claim_C3_witness :
    (ImageToObjectMap (asPlainImage (PlaceObjectMapEntriesIntoMetaData sampleMap))
        emptyObjectMap).entries = sampleMap.entries ∧
    (ImageToObjectMap (asPlainImage (PlaceObjectMapEntriesIntoMetaData sampleMap))
        emptyObjectMap).entries.length = sampleMap.entries.length :=
  claim_C3 sampleMap emptyObjectMap (by decide)

/-- C8: each mutating operation either fully completes with the
observable state consistent (the image's metadata copy agrees with the
table and the counter, invariant I3) or applies no change at all:
`DeleteAnalyzeObjectEntry` on a name not present in the table leaves the
image, the entry table, `NumberOfObjects`, and the metadata unchanged,
and `AddObjectEntryBasedOnImagePixel` on a source image of mismatched
extents aborts with the geometry-mismatch error, producing no mutated
state. -/
theorem claim_C8 (m : AnalyzeObjectMap) (name : String) :
    ((∀ e ∈ m.entries, e.name ≠ name) → DeleteAnalyzeObjectEntry name m = m) ∧
    ((∃ e ∈ m.entries, e.name = name) →
      MetaDataConsistent (DeleteAnalyzeObjectEntry name m)) ∧
    (∀ nm, MetaDataConsistent (AddAnalyzeObjectEntry nm m)) ∧
    (∀ source value nm r g b next,
      AddObjectEntryBasedOnImagePixel source value nm r g b m = Except.ok next →
      MetaDataConsistent next) ∧
    (∀ source value nm r g b, source.length ≠ m.image.length →
      AddObjectEntryBasedOnImagePixel source value nm r g b m
        = Except.error "geometry mismatch") ∧
    MetaDataConsistent (PlaceObjectMapEntriesIntoMetaData m) := by
  refine ⟨?_, ?_, fun nm => rfl, ?_, ?_, rfl⟩
  · intro hall
    unfold DeleteAnalyzeObjectEntry
    rw [(findEntryIndexFrom_eq_none name m.entries).mpr hall]
  · intro hex
    cases hf : findEntryIndexFrom name m.entries with
    | none =>
      obtain ⟨e, he, hn⟩ := hex
      exact absurd hn ((findEntryIndexFrom_eq_none name m.entries).mp hf e he)
    | some i =>
      unfold MetaDataConsistent DeleteAnalyzeObjectEntry
      rw [hf]
  · intro source value nm r g b next hok
    unfold AddObjectEntryBasedOnImagePixel at hok
    by_cases hlen : source.length = m.image.length
    · rw [if_pos hlen] at hok
      have hnext := Except.ok.inj hok
      subst hnext
      rfl
    · rw [if_neg hlen] at hok
      exact absurd hok (by simp)
  · intro source value nm r g b hlen
    unfold AddObjectEntryBasedOnImagePixel
    rw [if_neg hlen]

/-- C8 witness: on the concrete sample map, a not-found delete is the
identity, a found delete and a completed pixel-driven add leave the
metadata consistent, and a mismatched-extents pixel-driven add aborts
with the geometry-mismatch error. -/
theorem claim_C8_witness :
    DeleteAnalyzeObjectEntry "Z" sampleMap = sampleMap ∧
    MetaDataConsistent (DeleteAnalyzeObjectEntry "B" sampleMap) ∧
    MetaDataConsistent (addObjectEntryScan [7, 0, 7, 0, 0, 7, 0] 7 "new" 1 2 3 sampleMap) ∧
    AddObjectEntryBasedOnImagePixel [5] 7 "new" 1 2 3 sampleMap
      = Except.error "geometry mismatch" :=
  ⟨(claim_C8 sampleMap "Z").1 (by decide),
   (claim_C8 sampleMap "B").2.1 ⟨sampleEntryB, by decide, rfl⟩,
   (claim_C8 sampleMap "Z").2.2.2.1 [7, 0, 7, 0, 0, 7, 0] 7 "new" 1 2 3
     (addObjectEntryScan [7, 0, 7, 0, 0, 7, 0] 7 "new" 1 2 3 sampleMap) rfl,
   (claim_C8 sampleMap "Z").2.2.2.2.1 [5] 7 "new" 1 2 3 (by decide)⟩

/-- The states reachable by the public operations, starting from the
constructed map. -/
inductive Reachable : AnalyzeObjectMap → Prop where
  | construct : Reachable initialAnalyzeObjectMap
  | addEntry (m : AnalyzeObjectMap) (name : String) :
      Reachable m → Reachable (AddAnalyzeObjectEntry name m)
  | deleteEntry (m : AnalyzeObjectMap) (name : String) :
      Reachable m → Reachable (DeleteAnalyzeObjectEntry name m)
  | addFromPixel (m : AnalyzeObjectMap) (source : List Int) (value : Int)
      (name : String) (r g b : Int) (next : AnalyzeObjectMap) :
      Reachable m →
      AddObjectEntryBasedOnImagePixel source value name r g b m = Except.ok next →
      Reachable next
  | placeMetaData (m : AnalyzeObjectMap) :
      Reachable m → Reachable (PlaceObjectMapEntriesIntoMetaData m)
  | fromImage (m : AnalyzeObjectMap) (img : PlainImage) :
      Reachable m → Reachable (ImageToObjectMap img m)

/-- C2 counterexample: two public-operation states violate the claimed
predicate.  The freshly constructed map is reachable by zero public
operations, yet its entry table size (0) differs from its
`NumberOfObjects` counter (1); and `ImageToObjectMap` does not preserve
the predicate: applied to the valid sample map with a plain image whose
pixel 5 exceeds the (empty) table reconstructed from its metadata, it
yields an invalid state. -/
theorem claim_C2_counterexample :
    (Reachable initialAnalyzeObjectMap ∧ ¬ ValidState initialAnalyzeObjectMap) ∧
    (ValidState sampleMap ∧
      ¬ ValidState (ImageToObjectMap ⟨[5], []⟩ sampleMap)) := by
  refine ⟨⟨Reachable.construct, ?_⟩, by decide, by decide⟩
  intro h
  have h1 := h.1
  simp [initialAnalyzeObjectMap] at h1

/-- C2 (amended): every state satisfying the predicate (table size
equals `NumberOfObjects`, every pixel in `[0, NumberOfObjects]`) is
mapped to a state satisfying it by each of the public operations — add
entry, delete entry, pixel-driven add (on its non-aborting path), and
the metadata flush — while `ImageToObjectMap` yields a state satisfying
it exactly when every pixel of the input image lies within the size of
the entry table reconstructed from the input image's metadata. -/
theorem claim_C2 (m : AnalyzeObjectMap) (h : ValidState m) :
    (∀ name, ValidState (AddAnalyzeObjectEntry name m)) ∧
    (∀ name, ValidState (DeleteAnalyzeObjectEntry name m)) ∧
    (∀ source value name r g b next,
      AddObjectEntryBasedOnImagePixel source value name r g b m = Except.ok next →
      ValidState next) ∧
    ValidState (PlaceObjectMapEntriesIntoMetaData m) ∧
    (∀ img : PlainImage,
      (ValidState (ImageToObjectMap img m) ↔
        ∀ p ∈ img.pixels, p ≤ (loadEntriesFromMetaData img.metaData).length)) := by
  obtain ⟨h1, h2⟩ := h
  refine ⟨?_, ?_, ?_, ⟨h1, h2⟩, ?_⟩
  · intro name
    constructor
    · show ((m.entries ++ [makeEntry name 0 0 0]).length : Int) = m.numberOfObjects + 1
      simp only [List.length_append, List.length_cons, List.length_nil]
      omega
    · intro p hp
      have := h2 p hp
      show (p : Int) ≤ m.numberOfObjects + 1
      omega
  · intro name
    cases hf : findEntryIndexFrom name m.entries with
    | none =>
      unfold ValidState DeleteAnalyzeObjectEntry
      rw [hf]
      exact ⟨h1, h2⟩
    | some i =>
      have hi := (findEntryIndexFrom_some_bound name m.entries i hf).1
      unfold ValidState DeleteAnalyzeObjectEntry
      rw [hf]
      constructor
      · show (((m.entries.eraseIdx i).length : Int)) = m.numberOfObjects - 1
        rw [length_eraseIdx_of_lt m.entries i hi]
        omega
      · intro p hp
        obtain ⟨q, hq, hrel⟩ := List.mem_map.mp hp
        have hqb := h2 q hq
        show (p : Int) ≤ m.numberOfObjects - 1
        have hNpos : (1 : Int) ≤ m.numberOfObjects := by omega
        unfold relabelAfterDelete at hrel
        by_cases hq1 : q = i + 1
        · rw [if_pos hq1] at hrel
          omega
        · rw [if_neg hq1] at hrel
          by_cases hq2 : q > i + 1
          · rw [if_pos hq2] at hrel
            subst hrel
            have : ((q - 1 : Nat) : Int) = (q : Int) - 1 := by omega
            omega
          · rw [if_neg hq2] at hrel
            subst hrel
            have hqi : (q : Int) ≤ (i : Int) := by exact_mod_cast Nat.lt_succ_iff.mp (by omega)
            have hiN : ((i : Nat) : Int) < (m.entries.length : Int) := by exact_mod_cast hi
            omega
  · intro source value name r g b next hok
    unfold AddObjectEntryBasedOnImagePixel at hok
    by_cases hlen : source.length = m.image.length
    · rw [if_pos hlen] at hok
      have hnext := Except.ok.inj hok
      subst hnext
      constructor
      · show ((m.entries ++ [makeEntry name r g b]).length : Int) = m.numberOfObjects + 1
        simp only [List.length_append, List.length_cons, List.length_nil]
        omega
      · intro p hp
        show (p : Int) ≤ m.numberOfObjects + 1
        rcases mem_stampPixels _ _ _ _ p hp with hnl | hold
        · subst hnl
          have hnn : (0 : Int) ≤ m.numberOfObjects := by
            have : (0 : Int) ≤ (m.entries.length : Int) := Int.natCast_nonneg _
            omega
          have : ((m.numberOfObjects.toNat + 1 : Nat) : Int)
              = m.numberOfObjects + 1 := by omega
          omega
        · have := h2 p hold
          omega
    · rw [if_neg hlen] at hok
      exact absurd hok (by simp)
  · intro img
    constructor
    · intro hv p hp
      have hb := hv.2 p hp
      have hn : (ImageToObjectMap img m).numberOfObjects
          = ((loadEntriesFromMetaData img.metaData).length : Int) := rfl
      rw [hn] at hb
      exact_mod_cast hb
    · intro hpix
      constructor
      · rfl
      · intro p hp
        show (p : Int) ≤ ((loadEntriesFromMetaData img.metaData).length : Int)
        exact_mod_cast hpix p hp

/-- C2 witness: the amended preservation instantiated on the concrete
sample map, including the non-aborting pixel-driven add and a
within-range metadata load. -/
theorem claim_C2_witness :
    ValidState sampleMap ∧
    ValidState (AddAnalyzeObjectEntry "D" sampleMap) ∧
    ValidState (DeleteAnalyzeObjectEntry "B" sampleMap) ∧
    ValidState (addObjectEntryScan [7, 0, 7, 0, 0, 7, 0] (-1) "new" 1 2 3 sampleMap) ∧
    ValidState (ImageToObjectMap ⟨[0, 0], []⟩ sampleMap) :=
  ⟨by decide,
   (claim_C2 sampleMap (by decide)).1 "D",
   (claim_C2 sampleMap (by decide)).2.1 "B",
   (claim_C2 sampleMap (by decide)).2.2.1 [7, 0, 7, 0, 0, 7, 0] (-1) "new" 1 2 3
     (addObjectEntryScan [7, 0, 7, 0, 0, 7, 0] (-1) "new" 1 2 3 sampleMap) rfl,
   ((claim_C2 sampleMap (by decide)).2.2.2.2 ⟨[0, 0], []⟩).mpr (by decide)⟩

/-- C1: on a map whose labels are {1..N} and whose table holds the
looked-up name first at index `i`, `DeleteAnalyzeObjectEntry` resets
every pixel labeled `i+1` to 0, decrements every pixel labeled greater
than `i+1` by one (leaving smaller labels unchanged), removes the entry
at index `i`, decrements `NumberOfObjects`, and the resulting labels are
{1..N-1}. -/
theorem claim_C1 (m : AnalyzeObjectMap) (name : String) (i : Nat)
    (hfind : findEntryIndexFrom name m.entries = some i)
    (hN : (m.entries.length : Int) = m.numberOfObjects)
    (hub : ∀ p ∈ m.image, p ≤ m.entries.length)
    (hcov : ∀ k, 1 ≤ k → k ≤ m.entries.length → k ∈ m.image) :
    (∀ j, j < m.image.length →
      (m.image.getD j 0 = i + 1 →
        (DeleteAnalyzeObjectEntry name m).image.getD j 0 = 0) ∧
      (i + 1 < m.image.getD j 0 →
        (DeleteAnalyzeObjectEntry name m).image.getD j 0 = m.image.getD j 0 - 1) ∧
      (m.image.getD j 0 < i + 1 →
        (DeleteAnalyzeObjectEntry name m).image.getD j 0 = m.image.getD j 0)) ∧
    (DeleteAnalyzeObjectEntry name m).entries.length = m.entries.length - 1 ∧
    (∀ j, j < i →
      (DeleteAnalyzeObjectEntry name m).entries.getD j default
        = m.entries.getD j default) ∧
    (∀ j, i ≤ j → j < m.entries.length - 1 →
      (DeleteAnalyzeObjectEntry name m).entries.getD j default
        = m.entries.getD (j + 1) default) ∧
    (DeleteAnalyzeObjectEntry name m).numberOfObjects = m.numberOfObjects - 1 ∧
    (∀ p ∈ (DeleteAnalyzeObjectEntry name m).image, p ≤ m.entries.length - 1) ∧
    (∀ k, 1 ≤ k → k ≤ m.entries.length - 1 →
      k ∈ (DeleteAnalyzeObjectEntry name m).image) := by
  have hi : i < m.entries.length := (findEntryIndexFrom_some_bound name m.entries i hfind).1
  have himg : (DeleteAnalyzeObjectEntry name m).image
      = m.image.map (relabelAfterDelete i) := by
    unfold DeleteAnalyzeObjectEntry
    rw [hfind]
  have hent : (DeleteAnalyzeObjectEntry name m).entries = m.entries.eraseIdx i := by
    unfold DeleteAnalyzeObjectEntry
    rw [hfind]
  have hnum : (DeleteAnalyzeObjectEntry name m).numberOfObjects
      = m.numberOfObjects - 1 := by
    unfold DeleteAnalyzeObjectEntry
    rw [hfind]
  rw [himg, hent, hnum]
  refine ⟨?_, ?_, ?_, ?_, rfl, ?_, ?_⟩
  · intro j hj
    rw [getD_map_of_lt (relabelAfterDelete i) m.image j hj 0 0]
    refine ⟨?_, ?_, ?_⟩
    · intro hp
      unfold relabelAfterDelete
      rw [if_pos hp]
    · intro hlt
      have h1 : ¬ (m.image.getD j 0 = i + 1) := by omega
      unfold relabelAfterDelete
      rw [if_neg h1, if_pos hlt]
    · intro hlt
      have h1 : ¬ (m.image.getD j 0 = i + 1) := by omega
      have h2 : ¬ (m.image.getD j 0 > i + 1) := by omega
      unfold relabelAfterDelete
      rw [if_neg h1, if_neg h2]
  · exact length_eraseIdx_of_lt m.entries i hi
  · intro j hj
    exact getD_eraseIdx_of_lt m.entries i j default hj
  · intro j hj1 hj2
    exact getD_eraseIdx_of_ge m.entries i j default hj1 hj2
  · intro p hp
    obtain ⟨q, hq, hrel⟩ := List.mem_map.mp hp
    have hqb := hub q hq
    unfold relabelAfterDelete at hrel
    by_cases hq1 : q = i + 1
    · rw [if_pos hq1] at hrel
      omega
    · rw [if_neg hq1] at hrel
      by_cases hq2 : q > i + 1
      · rw [if_pos hq2] at hrel
        omega
      · rw [if_neg hq2] at hrel
        omega
  · intro k hk1 hk2
    by_cases hki : k ≤ i
    · have hkmem : k ∈ m.image := hcov k hk1 (by omega)
      refine List.mem_map.mpr ⟨k, hkmem, ?_⟩
      unfold relabelAfterDelete
      rw [if_neg (by omega), if_neg (by omega)]
    · have hkmem : k + 1 ∈ m.image := hcov (k + 1) (by omega) (by omega)
      refine List.mem_map.mpr ⟨k + 1, hkmem, ?_⟩
      unfold relabelAfterDelete
      rw [if_neg (by omega), if_pos (by omega)]
      omega

/-- C1 witness: deleting the entry named "B" (index 1, label 2) of the
concrete sample map with labels {1,2,3}. -/
theorem claim_C1_witness :
    (∀ j, j < sampleMap.image.length →
      (sampleMap.image.getD j 0 = 1 + 1 →
        (DeleteAnalyzeObjectEntry "B" sampleMap).image.getD j 0 = 0) ∧
      (1 + 1 < sampleMap.image.getD j 0 →
        (DeleteAnalyzeObjectEntry "B" sampleMap).image.getD j 0
          = sampleMap.image.getD j 0 - 1) ∧
      (sampleMap.image.getD j 0 < 1 + 1 →
        (DeleteAnalyzeObjectEntry "B" sampleMap).image.getD j 0
          = sampleMap.image.getD j 0)) ∧
    (DeleteAnalyzeObjectEntry "B" sampleMap).entries.length
      = sampleMap.entries.length - 1 ∧
    (∀ j, j < 1 →
      (DeleteAnalyzeObjectEntry "B" sampleMap).entries.getD j default
        = sampleMap.entries.getD j default) ∧
    (∀ j, 1 ≤ j → j < sampleMap.entries.length - 1 →
      (DeleteAnalyzeObjectEntry "B" sampleMap).entries.getD j default
        = sampleMap.entries.getD (j + 1) default) ∧
    (DeleteAnalyzeObjectEntry "B" sampleMap).numberOfObjects
      = sampleMap.numberOfObjects - 1 ∧
    (∀ p ∈ (DeleteAnalyzeObjectEntry "B" sampleMap).image,
      p ≤ sampleMap.entries.length - 1) ∧
    (∀ k, 1 ≤ k → k ≤ sampleMap.entries.length - 1 →
      k ∈ (DeleteAnalyzeObjectEntry "B" sampleMap).image) :=
  claim_C1 sampleMap "B" 1 (by decide) (by decide) (by decide) (by decide)

/-- C4: `AddObjectEntryBasedOnImagePixel` on a source image of the same
extents completes successfully and creates exactly one new entry (at
index N, for N = NumberOfObjects, with label N+1), stamps label N+1 at
exactly the coordinates where the source holds the looked-for value,
leaves all other coordinates unchanged, and increments
`NumberOfObjects`; when the value is the sentinel -1, the maximum value
actually found in the source image is used in its place. -/
theorem claim_C4 (m : AnalyzeObjectMap) (source : List Int) (value : Int)
    (name : String) (r g b : Int)
    (hgeo : source.length = m.image.length)
    (hI1 : (m.entries.length : Int) = m.numberOfObjects) :
    AddObjectEntryBasedOnImagePixel source value name r g b m
      = Except.ok (addObjectEntryScan source value name r g b m) ∧
    (addObjectEntryScan source value name r g b m).entries.length
      = m.entries.length + 1 ∧
    (addObjectEntryScan source value name r g b m).entries.getD
      m.numberOfObjects.toNat default = makeEntry name r g b ∧
    (∀ j, j < m.entries.length →
      (addObjectEntryScan source value name r g b m).entries.getD j default
        = m.entries.getD j default) ∧
    (addObjectEntryScan source value name r g b m).numberOfObjects
      = m.numberOfObjects + 1 ∧
    (addObjectEntryScan source value name r g b m).image.length
      = m.image.length ∧
    (∀ j, j < m.image.length →
      (source.getD j 0 = (if value = -1 then listMax source else value) →
        (addObjectEntryScan source value name r g b m).image.getD j 0
          = m.numberOfObjects.toNat + 1) ∧
      (source.getD j 0 ≠ (if value = -1 then listMax source else value) →
        (addObjectEntryScan source value name r g b m).image.getD j 0
          = m.image.getD j 0)) ∧
    (value = -1 → source ≠ [] →
      (if value = -1 then listMax source else value) ∈ source ∧
      ∀ x ∈ source, x ≤ (if value = -1 then listMax source else value)) := by
  have hNlen : m.numberOfObjects.toNat = m.entries.length := by omega
  refine ⟨?_, ?_, ?_, ?_, rfl, ?_, ?_, ?_⟩
  · unfold AddObjectEntryBasedOnImagePixel
    rw [if_pos hgeo]
  · show (m.entries ++ [makeEntry name r g b]).length = m.entries.length + 1
    simp
  · show (m.entries ++ [makeEntry name r g b]).getD m.numberOfObjects.toNat default
      = makeEntry name r g b
    rw [hNlen]
    exact getD_append_length m.entries _ default
  · intro j hj
    show (m.entries ++ [makeEntry name r g b]).getD j default = m.entries.getD j default
    exact getD_append_left m.entries _ j hj default
  · show (stampPixels (if value = -1 then listMax source else value)
      (m.numberOfObjects.toNat + 1) m.image source).length = m.image.length
    exact length_stampPixels _ _ m.image source
  · intro j hj
    have hs : j < source.length := by omega
    have hIm : (addObjectEntryScan source value name r g b m).image
        = stampPixels (if value = -1 then listMax source else value)
          (m.numberOfObjects.toNat + 1) m.image source := rfl
    rw [hIm, getD_stampPixels _ _ m.image source j hj hs]
    constructor
    · intro heq
      rw [if_pos heq]
    · intro hne
      rw [if_neg hne]
  · intro hv hne
    rw [if_pos hv]
    exact ⟨listMax_mem source hne, fun x hx => le_listMax source x hx⟩

/-- C4 witness: the sentinel-value add on the concrete sample map, with
a source image of the same extents in which the maximum value 7 occurs
at three coordinates. -/
theorem claim_C4_witness :
    AddObjectEntryBasedOnImagePixel [7, 0, 7, 0, 0, 7, 0] (-1) "new" 1 2 3 sampleMap
      = Except.ok (addObjectEntryScan [7, 0, 7, 0, 0, 7, 0] (-1) "new" 1 2 3 sampleMap) ∧
    (addObjectEntryScan [7, 0, 7, 0, 0, 7, 0] (-1) "new" 1 2 3
        sampleMap).entries.length = sampleMap.entries.length + 1 ∧
    (addObjectEntryScan [7, 0, 7, 0, 0, 7, 0] (-1) "new" 1 2 3
        sampleMap).entries.getD sampleMap.numberOfObjects.toNat default
      = makeEntry "new" 1 2 3 ∧
    (∀ j, j < sampleMap.entries.length →
      (addObjectEntryScan [7, 0, 7, 0, 0, 7, 0] (-1) "new" 1 2 3
          sampleMap).entries.getD j default = sampleMap.entries.getD j default) ∧
    (addObjectEntryScan [7, 0, 7, 0, 0, 7, 0] (-1) "new" 1 2 3
        sampleMap).numberOfObjects = sampleMap.numberOfObjects + 1 ∧
    (addObjectEntryScan [7, 0, 7, 0, 0, 7, 0] (-1) "new" 1 2 3
        sampleMap).image.length = sampleMap.image.length ∧
    (∀ j, j < sampleMap.image.length →
      (List.getD [7, 0, 7, 0, 0, 7, 0] j 0
          = (if (-1 : Int) = -1 then listMax [7, 0, 7, 0, 0, 7, 0] else -1) →
        (addObjectEntryScan [7, 0, 7, 0, 0, 7, 0] (-1) "new" 1 2 3
            sampleMap).image.getD j 0 = sampleMap.numberOfObjects.toNat + 1) ∧
      (List.getD [7, 0, 7, 0, 0, 7, 0] j 0
          ≠ (if (-1 : Int) = -1 then listMax [7, 0, 7, 0, 0, 7, 0] else -1) →
        (addObjectEntryScan [7, 0, 7, 0, 0, 7, 0] (-1) "new" 1 2 3
            sampleMap).image.getD j 0 = sampleMap.image.getD j 0)) ∧
    ((-1 : Int) = -1 → ([7, 0, 7, 0, 0, 7, 0] : List Int) ≠ [] →
      (if (-1 : Int) = -1 then listMax [7, 0, 7, 0, 0, 7, 0] else -1)
          ∈ ([7, 0, 7, 0, 0, 7, 0] : List Int) ∧
      ∀ x ∈ ([7, 0, 7, 0, 0, 7, 0] : List Int),
        x ≤ (if (-1 : Int) = -1 then listMax [7, 0, 7, 0, 0, 7, 0] else -1)) :=
  claim_C4 sampleMap [7, 0, 7, 0, 0, 7, 0] (-1) "new" 1 2 3 (by decide) (by decide)

/-- C6: `ObjectMapToRGBImage` returns a color image of the same
geometry, giving each pixel with label 0 the fixed background color and
each pixel with label L in `[1, table.size]` the color triple of the
entry at table index L-1, and does not mutate the object map. -/
theorem claim_C6 (m : AnalyzeObjectMap) :
    (ObjectMapToRGBImage m).1 = m ∧
    (ObjectMapToRGBImage m).2.length = m.image.length ∧
    (∀ j, j < m.image.length →
      (m.image.getD j 0 = 0 →
        (ObjectMapToRGBImage m).2.getD j backgroundColor = backgroundColor) ∧
      (1 ≤ m.image.getD j 0 → m.image.getD j 0 ≤ m.entries.length →
        (ObjectMapToRGBImage m).2.getD j backgroundColor
          = entryColor (m.entries.getD (m.image.getD j 0 - 1) default))) := by
  refine ⟨rfl, ?_, ?_⟩
  · show (m.image.map _).length = m.image.length
    simp
  · intro j hj
    have hmap : (ObjectMapToRGBImage m).2.getD j backgroundColor
        = (fun l => if l = 0 then backgroundColor
            else
              match m.entries.get? (l - 1) with
              | some e => entryColor e
              | none => backgroundColor) (m.image.getD j 0) :=
      getD_map_of_lt _ m.image j hj 0 backgroundColor
    constructor
    · intro h0
      rw [hmap, h0]
      simp
    · intro h1 h2
      have hne : ¬ (m.image.getD j 0 = 0) := by omega
      have hlt : m.image.getD j 0 - 1 < m.entries.length := by omega
      rw [hmap]
      show (if m.image.getD j 0 = 0 then backgroundColor
          else
            match m.entries.get? (m.image.getD j 0 - 1) with
            | some e => entryColor e
            | none => backgroundColor)
        = entryColor (m.entries.getD (m.image.getD j 0 - 1) default)
      rw [if_neg hne, getD_of_get? m.entries _ default hlt]

/-- C6 witness: the projection on the concrete sample map, at a
background pixel and at a pixel with label 2. -/
theorem claim_C6_witness :
    (ObjectMapToRGBImage sampleMap).1 = sampleMap ∧
    (ObjectMapToRGBImage sampleMap).2.getD 0 backgroundColor = backgroundColor ∧
    (ObjectMapToRGBImage sampleMap).2.getD 2 backgroundColor
      = entryColor (sampleMap.entries.getD (sampleMap.image.getD 2 0 - 1) default) :=
  ⟨(claim_C6 sampleMap).1,
   ((claim_C6 sampleMap).2.2 0 (by decide)).1 (by decide),
   ((claim_C6 sampleMap).2.2 2 (by decide)).2 (by decide) (by decide)⟩

end ITKObjectMap
